import Mathlib

/-!
Shallow embedding of src/DigitalGel.py: a digital agarose-gel renderer.
Band, Lane, Gel and drawParams are translated structure-for-structure;
the svgwrite drawing object is modelled as a list of emitted events, and
Python exceptions (max/min over an empty sequence) as Except values.
Real-valued migration arithmetic (math.log10) is modelled over the reals.
-/

/-- Errors surfaced by the embedding: the reference code raises when it
takes a max or min over an empty sequence of lanes or bands. -/
inductive GelError
  | emptyInput
deriving DecidableEq

/-- drawParams from DigitalGel.py: the drawing configuration record. -/
structure drawParams where
  gelHeight : ℕ := 400
  margin : ℕ := 60
  laneWidth : ℕ := 30
  gapWidth : ℕ := 20
  fontsize : ℕ := 12
  dilationFactor : ℚ := 5
deriving DecidableEq

/-- Band from DigitalGel.py: one fragment with its label text, read count
and optional hyperlink. -/
structure Band where
  numBases : ℕ
  annot : String := ""
  reads : ℚ := 1
  link : Option String := none
deriving DecidableEq

/-- Lane from DigitalGel.py: Lane.__init__ copies the band list and the
two drawing parameters it keeps (gelHeight, dilationFactor). -/
structure Lane where
  name : String
  bands : List Band
  isLadder : Bool
  gelHeight : ℕ
  dilationFactor : ℚ
deriving DecidableEq

/-- Lane.__init__: list(bands) snapshots the band sequence; gelHeight and
dilationFactor are copied out of the drawParams object. -/
def mkLane (name : String) (bands : List Band) (dParam : drawParams)
    (isLadder : Bool) : Lane :=
  ⟨name, bands, isLadder, dParam.gelHeight, dParam.dilationFactor⟩

/-- Python max over a nonempty list of naturals; None models the
ValueError raised on an empty sequence. -/
def pyMaxNat : List ℕ → Except GelError ℕ
  | [] => .error .emptyInput
  | x :: xs => .ok (xs.foldl max x)

/-- Python min over a nonempty list of naturals. -/
def pyMinNat : List ℕ → Except GelError ℕ
  | [] => .error .emptyInput
  | x :: xs => .ok (xs.foldl min x)

/-- Python max over a nonempty list of rationals (used for maxNum, the
largest read count of a lane). -/
def pyMaxQ : List ℚ → Option ℚ
  | [] => none
  | x :: xs => some (xs.foldl max x)

/-- Evaluate a fallible function over a list, stopping at the first
failure: the shape of Python generator evaluation inside max/min. -/
def exceptMap {α β : Type} (f : α → Except GelError β) : List α → Except GelError (List β)
  | [] => .ok []
  | a :: l =>
    match f a with
    | .error e => .error e
    | .ok b =>
      match exceptMap f l with
      | .error e => .error e
      | .ok bs => .ok (b :: bs)

/-- max(max(band.numBases for band in lane.bands) for lane in self.lanes):
raises when there are no lanes or some lane has no bands. -/
def dataMaxN (lanes : List Lane) : Except GelError ℕ :=
  match exceptMap (fun l => pyMaxNat (l.bands.map Band.numBases)) lanes with
  | .error e => .error e
  | .ok ms => pyMaxNat ms

/-- min(min(band.numBases for band in lane.bands) for lane in self.lanes). -/
def dataMinN (lanes : List Lane) : Except GelError ℕ :=
  match exceptMap (fun l => pyMinNat (l.bands.map Band.numBases)) lanes with
  | .error e => .error e
  | .ok ms => pyMinNat ms

/-- The ladder band label: str(length).rjust(3) padded with spaces. -/
def rjust3 (n : ℕ) : String :=
  let s := toString n
  ⟨List.replicate (3 - s.length) ' '⟩ ++ s

/-- One iteration of the Gel.__makeLadder scan: the accumulator carries
(bands so far, newMin, newMax), ind is the current index into the
canonical marker list. -/
def ladderStep (L bold : List ℕ) (minN maxN : ℕ)
    (acc : List Band × ℕ × ℕ) (ind : ℕ) : List Band × ℕ × ℕ :=
  let bands := acc.1
  let newMin := acc.2.1
  let newMax := acc.2.2
  let length := L.getD ind 0
  let intensity : ℚ := if length ∈ bold then 1 else 1/2
  let n1 := L.getD (max 0 (ind - 1)) 0
  let n2 := L.getD (min (L.length - 1) (ind + 1)) 0
  if (length < maxN ∧ length > minN) ∨ (n1 < maxN ∧ length > minN) ∨
      (n2 > minN ∧ length < maxN) then
    (bands ++ [⟨length, rjust3 length, intensity, none⟩],
     if n1 < maxN ∧ length > minN ∧ n1 < newMin then n1 else newMin,
     if n2 > minN ∧ length < maxN ∧ n2 > newMax then n2 else newMax)
  else
    (bands, newMin, newMax)

/-- Gel.__makeLadder for a given observed data range: returns the ladder
bands together with the (possibly widened) minNBases and maxNBases. -/
def makeLadderF (L bold : List ℕ) (minN maxN : ℕ) : List Band × ℕ × ℕ :=
  let scan := (List.range L.length).foldl (ladderStep L bold minN maxN) ([], 1000, 0)
  let newMin := scan.2.1
  let newMax := scan.2.2
  (scan.1,
   if newMin ≠ 0 ∧ newMin < minN then newMin else minN,
   if newMax ≠ 0 ∧ newMax > maxN then newMax else maxN)

/-- The default canonical ladder marker list of Gel.__init__. -/
def defaultLadder : List ℕ :=
  [25, 50, 75, 100, 125, 150, 200, 250, 300, 400, 500, 600, 700, 800, 900,
   1000, 1250, 1500, 1750, 2000]

/-- The default bold ladder subset of Gel.__init__. -/
def defaultBold : List ℕ := [50, 100, 200, 500, 1000, 1500]

/-- Events emitted to the svgwrite drawing: rectangles, text, and
hyperlink-wrapped groups. Serialization is modelled as the event list. -/
inductive Event
  | text (content : String) (pos : ℤ × ℤ) (fontsize : ℕ)
  | rect (pos : ℤ × ℤ) (size : ℚ × ℚ) (fill : String) (opacity : ℚ)
  | hyperlink (target : String) (inner : List Event)

/-- Gel from DigitalGel.py. The svgwrite Drawing object is the dwg field;
filename/tempfile plumbing is out of scope. -/
structure Gel where
  boldLadder : List ℕ
  lanes : List Lane
  dParam : drawParams
  dwg : List Event
  minNBases : ℕ
  maxNBases : ℕ
  ladder : Lane

/-- Gel.__init__: snapshots the lane list, computes the data range
(raising on empty input), builds the ladder lane, and records the
widened range. -/
def Gel.init (lanes : List Lane) (dParam : drawParams)
    (ladder : List ℕ := defaultLadder) (boldLadder : List ℕ := defaultBold) :
    Except GelError Gel :=
  match dataMaxN lanes with
  | .error e => .error e
  | .ok maxN =>
    match dataMinN lanes with
    | .error e => .error e
    | .ok minN =>
      let r := makeLadderF ladder boldLadder minN maxN
      .ok ⟨boldLadder, lanes, dParam, [], r.2.1, r.2.2,
           mkLane "Ladder" r.1 dParam true⟩

/-- Fallback Gel value used when pattern-matching an Except that is
known to be ok. -/
def gFallback : Gel :=
  ⟨[], [], {}, [], 0, 0, ⟨"F", [], true, 400, 5⟩⟩

/-- Lane.__distance: dilationFactor * (4 - log10(numBases)). -/
noncomputable def distance (lane : Lane) (numBases : ℝ) : ℝ :=
  (lane.dilationFactor : ℝ) * (4 - Real.logb 10 numBases)

/-- The Python int() conversion: truncation toward zero. -/
noncomputable def pyInt (x : ℝ) : ℤ :=
  if 0 ≤ x then ⌊x⌋ else ⌈x⌉

/-- Lane.__lengthtoIndex: rescale the migration distance of a band into a
pixel index within the gel height. -/
noncomputable def lengthtoIndex (lane : Lane) (b : Band) (low high : ℕ) : ℤ :=
  let minimum := distance lane high
  let expFactor := distance lane low - minimum
  pyInt ((distance lane b.numBases - minimum) / expFactor * ((lane.gelHeight : ℝ) - 1))

/-- The pixel row a band occupies in Lane.draw: the migration index plus
the top margin. -/
noncomputable def rowOf (lane : Lane) (minB maxB : ℕ) (p : drawParams)
    (b : Band) : ℤ :=
  lengthtoIndex lane b minB maxB + (p.margin : ℤ)

/-- The intensity assigned to a band in Lane.draw: the raw reads for a
ladder lane, otherwise normalized against the lane maximum with floor
minBandIntensity = 0.2. -/
def intensityOf (lane : Lane) (maxNum : ℚ) (b : Band) : ℚ :=
  if lane.isLadder then b.reads
  else max (1 - (maxNum - b.reads) / maxNum) (1/5)

/-- Band.draw: the band rectangle plus its label text, wrapped in a
hyperlink when the band carries a link. -/
def bandDraw (b : Band) (x y : ℤ) (intensity : ℚ) (p : drawParams)
    (isLadder : Bool) : List Event :=
  let bandLine := Event.rect (x, y) ((p.laneWidth : ℚ), 1) "white" intensity
  let tx : ℤ := if isLadder then x - (2 * p.margin / 3 : ℕ) else 0
  let ty : ℤ := if isLadder then y + 3
    else (p.gelHeight : ℤ) + 2 * (p.margin : ℤ) - 5
  let label := Event.text b.annot (tx, ty) p.fontsize
  match b.link with
  | some l => [Event.hyperlink l [bandLine, label]]
  | none => [bandLine, label]

/-- The band loop of Lane.draw: a band is emitted only when its pixel row
has not been seen yet, and an emitted band marks its row as seen. -/
def drawBands (row : Band → ℤ) (emit : Band → ℤ → List Event) :
    List Band → List ℤ → List Event
  | [], _ => []
  | b :: bs, seen =>
    if row b ∈ seen then drawBands row emit bs seen
    else emit b (row b) ++ drawBands row emit bs (row b :: seen)

/-- The bands that survive the SeenY row filter of Lane.draw, in order. -/
def survivors (row : Band → ℤ) : List Band → List ℤ → List Band
  | [], _ => []
  | b :: bs, seen =>
    if row b ∈ seen then survivors row bs seen
    else b :: survivors row bs (row b :: seen)

/-- The event block emitted for a single surviving band in Lane.draw. -/
noncomputable def emitOf (lane : Lane) (x : ℤ) (p : drawParams) (maxNum : ℚ)
    (b : Band) (y : ℤ) : List Event :=
  bandDraw b x y (intensityOf lane maxNum b) p lane.isLadder

/-- Lane.draw: the lane name text, then the band loop. The error case
models the ValueError raised by max over an empty band list. -/
noncomputable def laneDrawEvents (lane : Lane) (x : ℤ) (minB maxB : ℕ)
    (p : drawParams) : Except GelError (List Event) :=
  match pyMaxQ (lane.bands.map Band.reads) with
  | none => .error .emptyInput
  | some maxNum =>
    .ok (Event.text lane.name (x, 10) p.fontsize ::
      drawBands (rowOf lane minB maxB p) (emitOf lane x p maxNum)
        lane.bands [])

/-- The gelWidth expression of Gel.draw, as a function of the drawing
parameters and len(self.lanes). Note that self.lanes holds the data
lanes only; the ladder lane is stored separately. -/
def gelWidthN (p : drawParams) (laneCount : ℕ) : ℤ :=
  (p.margin : ℤ) * 2 + ((laneCount : ℤ) - 1) * (p.gapWidth : ℤ)
    + (laneCount : ℤ) * (p.laneWidth : ℤ)

/-- The gelWidth expression of Gel.draw for a Gel value. -/
def gelWidth (g : Gel) : ℤ := gelWidthN g.dParam g.lanes.length

/-- The full-canvas background rectangle drawn first by Gel.draw. -/
def bgEventN (p : drawParams) (laneCount : ℕ) : Event :=
  Event.rect (0, 0) ((gelWidthN p laneCount : ℚ), (p.gelHeight : ℚ) + 2 * (p.margin : ℚ))
    "black" 1

/-- The background rectangle of Gel.draw for a Gel value. -/
def bgEvent (g : Gel) : Event := bgEventN g.dParam g.lanes.length

/-- The x coordinate of data lane number index in Gel.draw. -/
def laneXN (p : drawParams) (index : ℕ) : ℤ :=
  (p.margin : ℤ) + ((index : ℤ) + 1) * ((p.gapWidth : ℤ) + (p.laneWidth : ℤ))

/-- The data-lane loop of Gel.draw: each lane is drawn at its indexed
x coordinate, in order. -/
noncomputable def drawLanes (p : drawParams) (minN maxN : ℕ) :
    List Lane → ℕ → Except GelError (List Event)
  | [], _ => .ok []
  | lane :: rest, index =>
    match laneDrawEvents lane (laneXN p index) minN maxN p with
    | .error e => .error e
    | .ok evs =>
      match drawLanes p minN maxN rest (index + 1) with
      | .error e => .error e
      | .ok evss => .ok (evs ++ evss)

/-- The events emitted by one call of Gel.draw: background, ladder lane,
then each data lane in order. -/
noncomputable def gelDrawCore (lanes : List Lane) (p : drawParams)
    (minN maxN : ℕ) (ladder : Lane) : Except GelError (List Event) :=
  match laneDrawEvents ladder (p.margin : ℤ) minN maxN p with
  | .error e => .error e
  | .ok ladderEvs =>
    match drawLanes p minN maxN lanes 0 with
    | .error e => .error e
    | .ok laneEvs => .ok (bgEventN p lanes.length :: (ladderEvs ++ laneEvs))

/-- The events emitted by one call of Gel.draw on a Gel value. -/
noncomputable def gelDrawEvents (g : Gel) : Except GelError (List Event) :=
  gelDrawCore g.lanes g.dParam g.minNBases g.maxNBases g.ladder

/-- Gel.draw: appends the events of this call to the persistent drawing and
returns the updated Gel together with the serialized document, modelled
as the full element list of the drawing. -/
noncomputable def Gel.draw (g : Gel) : Except GelError (Gel × List Event) :=
  (gelDrawEvents g).map (fun E => ({g with dwg := g.dwg ++ E}, g.dwg ++ E))

/-- The outputs of two successive Gel.draw calls on the same object. -/
noncomputable def drawDrawOutputs (g : Gel) :
    Except GelError (List Event × List Event) :=
  match Gel.draw g with
  | .error e => .error e
  | .ok (g1, o1) =>
    match Gel.draw g1 with
    | .error e => .error e
    | .ok (_, o2) => .ok (o1, o2)

/-- Both Gel.draw calls succeed, and the second serialized output is the
first one extended by a further nonempty event block, hence different. -/
noncomputable def secondDrawDiffers (g : Gel) : Prop :=
  match drawDrawOutputs g with
  | .ok (o1, o2) => o1 ≠ o2 ∧ ∃ E, E ≠ [] ∧ o2 = o1 ++ E
  | .error _ => False

/-- How a constructor can hold a caller-supplied sequence: as a snapshot
copied at construction time, or as an alias into the mutable caller-side
store of sequences. -/
inductive SeqSrc (α : Type)
  | snapshot (xs : List α)
  | byRef (r : ℕ)

/-- Read a held sequence under the current store state. -/
def SeqSrc.resolve {α : Type} : SeqSrc α → (ℕ → List α) → List α
  | .snapshot xs, _ => xs
  | .byRef r, σ => σ r

/-- A Lane whose band sequence records how it was captured. -/
structure LaneS where
  name : String
  src : SeqSrc Band
  isLadder : Bool
  gelHeight : ℕ
  dilationFactor : ℚ

/-- Lane.__init__ against a caller store: self.bands = list(bands) copies
the sequence, so the lane holds a snapshot of the value in the store at
construction time, not a reference into the store. -/
def mkLaneS (name : String) (σ : ℕ → List Band) (r : ℕ) (dParam : drawParams)
    (isLadder : Bool) : LaneS :=
  ⟨name, .snapshot (σ r), isLadder, dParam.gelHeight, dParam.dilationFactor⟩

/-- The plain Lane a LaneS denotes under the current store state. -/
def LaneS.toLane (l : LaneS) (σ : ℕ → List Band) : Lane :=
  ⟨l.name, l.src.resolve σ, l.isLadder, l.gelHeight, l.dilationFactor⟩

/-- Lane.draw as observed under the current store state. -/
noncomputable def laneDrawEventsS (l : LaneS) (σ : ℕ → List Band) (x : ℤ)
    (minB maxB : ℕ) (p : drawParams) : Except GelError (List Event) :=
  laneDrawEvents (l.toLane σ) x minB maxB p

/-- A Gel constructor argument whose lane sequence records how it was
captured: Gel.__init__ does self.lanes = list(lanes), a snapshot. -/
def mkGelLanesS (τ : ℕ → List Lane) (s : ℕ) : SeqSrc Lane :=
  .snapshot (τ s)

/-- Gel.__init__ as observed under the current store state. -/
def gelInitS (src : SeqSrc Lane) (τ : ℕ → List Lane) (dParam : drawParams)
    (ladder boldLadder : List ℕ) : Except GelError Gel :=
  Gel.init (src.resolve τ) dParam ladder boldLadder

section Helpers

lemma foldl_max_init_le {α : Type} [LinearOrder α] (l : List α) (a : α) :
    a ≤ l.foldl max a := by
  induction l generalizing a with
  | nil => exact le_refl a
  | cons b l ih => exact le_trans (le_max_left a b) (ih (max a b))

lemma foldl_max_mem_le {α : Type} [LinearOrder α] (l : List α) (a : α) :
    ∀ x ∈ l, x ≤ l.foldl max a := by
  induction l generalizing a with
  | nil => intro x hx; cases hx
  | cons b l ih =>
    intro x hx
    rcases List.mem_cons.mp hx with h | h
    · subst h
      exact le_trans (le_max_right a x) (foldl_max_init_le l (max a x))
    · exact ih (max a b) x h

lemma pyMaxQ_spec (l : List ℚ) (M : ℚ) (h : pyMaxQ l = some M) :
    ∀ x ∈ l, x ≤ M := by
  cases l with
  | nil => cases h
  | cons a l =>
    intro x hx
    simp only [pyMaxQ, Option.some.injEq] at h
    subst h
    rcases List.mem_cons.mp hx with h | h
    · subst h; exact foldl_max_init_le l x
    · exact foldl_max_mem_le l a x h

end Helpers

/-- C7: for all fragment lengths 0 < n1 < n2, the migrated distance of n1
is strictly larger than that of n2: distance is strictly decreasing in
the fragment length, for every positive dilation factor. -/
theorem distance_strict_anti (lane : Lane) (n1 n2 : ℝ)
    (hd : 0 < lane.dilationFactor) (h1 : 0 < n1) (h12 : n1 < n2) :
    distance lane n2 < distance lane n1 := by
  unfold distance
  have hdr : (0 : ℝ) < (lane.dilationFactor : ℝ) := by exact_mod_cast hd
  have hlog : Real.logb 10 n1 < Real.logb 10 n2 := by
    unfold Real.logb
    have h10 : (0 : ℝ) < Real.log 10 := Real.log_pos (by norm_num)
    exact div_lt_div_of_pos_right (Real.log_lt_log h1 h12) h10
  have hsub : 4 - Real.logb 10 n2 < 4 - Real.logb 10 n1 :=
    sub_lt_sub_left hlog 4
  exact mul_lt_mul_of_pos_left hsub hdr

def wLaneC7 : Lane := mkLane "m" [] {} false

theorem distance_strict_anti_witness :
    0 < wLaneC7.dilationFactor ∧ (0 : ℝ) < 10 ∧ (10 : ℝ) < 100 ∧
      distance wLaneC7 100 < distance wLaneC7 10 :=
  ⟨by norm_num [wLaneC7, mkLane], by norm_num, by norm_num,
   distance_strict_anti wLaneC7 10 100 (by norm_num [wLaneC7, mkLane])
     (by norm_num) (by norm_num)⟩

/-- C3: in a data lane whose reads are all nonnegative with positive lane
maximum M, every normalized band intensity lies in [0.2, 1], and a band
whose reads equal M gets intensity exactly 1. -/
theorem intensity_normalized (lane : Lane) (M : ℚ)
    (hl : lane.isLadder = false)
    (hM : pyMaxQ (lane.bands.map Band.reads) = some M)
    (hnn : ∀ b ∈ lane.bands, 0 ≤ b.reads) (hpos : 0 < M) :
    ∀ b ∈ lane.bands,
      1/5 ≤ intensityOf lane M b ∧ intensityOf lane M b ≤ 1 ∧
        (b.reads = M → intensityOf lane M b = 1) := by
  intro b hb
  have hr : b.reads ≤ M :=
    pyMaxQ_spec _ M hM b.reads (List.mem_map_of_mem Band.reads hb)
  simp only [intensityOf, hl, Bool.false_eq_true, if_false]
  refine ⟨le_max_right _ _, ?_, ?_⟩
  · refine max_le ?_ (by norm_num)
    have hdiv : 0 ≤ (M - b.reads) / M :=
      div_nonneg (sub_nonneg.mpr hr) hpos.le
    linarith
  · intro hEq
    rw [hEq]
    rw [sub_self, zero_div, sub_zero]
    exact max_eq_left (by norm_num)

def wB2 : Band := ⟨200, "", 5, none⟩

def wLaneC3 : Lane := mkLane "d" [⟨100, "", 2, none⟩, wB2] {} false

theorem intensity_normalized_witness :
    1/5 ≤ intensityOf wLaneC3 5 wB2 ∧ intensityOf wLaneC3 5 wB2 ≤ 1 ∧
      (wB2.reads = 5 → intensityOf wLaneC3 5 wB2 = 1) :=
  intensity_normalized wLaneC3 5 rfl (by decide) (by decide) (by norm_num)
    wB2 (by decide)

/-- C9: Lane.__init__ and Gel.__init__ copy the supplied sequence, so any
later mutation of the caller-side store leaves the bands of the
constructed object and its draw output unchanged. -/
theorem constructors_snapshot (name : String) (σ σ2 : ℕ → List Band)
    (r : ℕ) (p pp : drawParams) (isL : Bool) (x : ℤ) (minB maxB : ℕ)
    (τ τ2 : ℕ → List Lane) (s : ℕ) (L B : List ℕ) :
    (mkLaneS name σ r p isL).toLane σ2 = mkLane name (σ r) p isL ∧
    laneDrawEventsS (mkLaneS name σ r p isL) σ2 x minB maxB pp
      = laneDrawEvents (mkLane name (σ r) p isL) x minB maxB pp ∧
    gelInitS (mkGelLanesS τ s) τ2 p L B = Gel.init (τ s) p L B :=
  ⟨rfl, rfl, rfl⟩

section RowCollision

lemma drawBands_eq_flatMap (row : Band → ℤ) (emit : Band → ℤ → List Event) :
    ∀ (bs : List Band) (seen : List ℤ),
      drawBands row emit bs seen
        = (survivors row bs seen).flatMap (fun b => emit b (row b)) := by
  intro bs
  induction bs with
  | nil => intro seen; rfl
  | cons b bs ih =>
    intro seen
    by_cases h : row b ∈ seen
    · simp [drawBands, survivors, h, ih]
    · simp [drawBands, survivors, h, ih]

lemma survivors_skip_of_mem (row : Band → ℤ) (b2 : Band) (l3 : List Band) :
    ∀ (l2 : List Band) (seen : List ℤ), row b2 ∈ seen →
      survivors row (l2 ++ b2 :: l3) seen = survivors row (l2 ++ l3) seen := by
  intro l2
  induction l2 with
  | nil =>
    intro seen h
    simp [survivors, h]
  | cons c l2 ih =>
    intro seen h
    by_cases hc : row c ∈ seen
    · simp only [List.cons_append, survivors, if_pos hc]
      exact ih seen h
    · simp only [List.cons_append, survivors, if_neg hc]
      exact congrArg (c :: ·) (ih (row c :: seen) (List.mem_cons_of_mem _ h))

lemma survivors_dup (row : Band → ℤ) (b1 b2 : Band) (l2 l3 : List Band)
    (hrow : row b1 = row b2) :
    ∀ (l1 : List Band) (seen : List ℤ),
      survivors row (l1 ++ b1 :: (l2 ++ b2 :: l3)) seen
        = survivors row (l1 ++ b1 :: (l2 ++ l3)) seen := by
  intro l1
  induction l1 with
  | nil =>
    intro seen
    by_cases h : row b1 ∈ seen
    · simp only [List.nil_append, survivors, if_pos h]
      exact survivors_skip_of_mem row b2 l3 l2 seen (hrow ▸ h)
    · simp only [List.nil_append, survivors, if_neg h]
      refine congrArg (b1 :: ·) ?_
      exact survivors_skip_of_mem row b2 l3 l2 (row b1 :: seen)
        (by rw [← hrow]; exact List.mem_cons_self _ _)
  | cons c l1 ih =>
    intro seen
    by_cases hc : row c ∈ seen
    · simp only [List.cons_append, survivors, if_pos hc]
      exact ih seen
    · simp only [List.cons_append, survivors, if_neg hc]
      exact congrArg (c :: ·) (ih (row c :: seen))

end RowCollision

/-- C1: if two bands of a lane map to the same pixel row, the later one is
skipped entirely: the surviving-band list is as if the later band were
absent (under every initial seen-row set); symmetrically, after swapping
the two bands the other one survives instead; and the events Lane.draw
emits are the lane name text followed by exactly the event blocks of the
surviving bands, so no shape, text or link is emitted for the skipped
band. -/
theorem lane_row_collision (lane : Lane) (x : ℤ) (minB maxB : ℕ)
    (p : drawParams) (l1 l2 l3 : List Band) (b1 b2 : Band)
    (hb : lane.bands = l1 ++ b1 :: (l2 ++ b2 :: l3))
    (hrow : rowOf lane minB maxB p b1 = rowOf lane minB maxB p b2) :
    (∀ seen, survivors (rowOf lane minB maxB p) lane.bands seen
        = survivors (rowOf lane minB maxB p) (l1 ++ b1 :: (l2 ++ l3)) seen) ∧
    (∀ seen, survivors (rowOf lane minB maxB p) (l1 ++ b2 :: (l2 ++ b1 :: l3)) seen
        = survivors (rowOf lane minB maxB p) (l1 ++ b2 :: (l2 ++ l3)) seen) ∧
    ∃ M, pyMaxQ (lane.bands.map Band.reads) = some M ∧
      laneDrawEvents lane x minB maxB p
        = .ok (Event.text lane.name (x, 10) p.fontsize ::
            (survivors (rowOf lane minB maxB p) (l1 ++ b1 :: (l2 ++ l3)) []).flatMap
              (fun b => emitOf lane x p M b (rowOf lane minB maxB p b))) := by
  have part1 : ∀ seen, survivors (rowOf lane minB maxB p) lane.bands seen
      = survivors (rowOf lane minB maxB p) (l1 ++ b1 :: (l2 ++ l3)) seen := by
    intro seen
    rw [hb]
    exact survivors_dup _ b1 b2 l2 l3 hrow l1 seen
  refine ⟨part1, ?_, ?_⟩
  · intro seen
    exact survivors_dup _ b2 b1 l2 l3 hrow.symm l1 seen
  · obtain ⟨c, cs, hl⟩ : ∃ c cs, lane.bands = c :: cs := by
      rcases h : lane.bands with _ | ⟨c, cs⟩
      · rw [h] at hb
        rcases l1 with _ | ⟨d, ds⟩ <;> simp at hb
      · exact ⟨c, cs, rfl⟩
    refine ⟨(cs.map Band.reads).foldl max c.reads, ?_, ?_⟩
    · rw [hl]; rfl
    · have hmax : pyMaxQ (lane.bands.map Band.reads)
          = some ((cs.map Band.reads).foldl max c.reads) := by rw [hl]; rfl
      simp only [laneDrawEvents, hmax]
      rw [drawBands_eq_flatMap, part1 []]

def wBandA : Band := ⟨100, "A", 2, none⟩

def wBandB : Band := ⟨100, "B", 3, none⟩

def wLaneC1 : Lane := mkLane "L1" [wBandA, wBandB] {} false

theorem lane_row_collision_witness :
    wLaneC1.bands = [] ++ wBandA :: ([] ++ wBandB :: []) ∧
    rowOf wLaneC1 100 200 {} wBandA = rowOf wLaneC1 100 200 {} wBandB ∧
    survivors (rowOf wLaneC1 100 200 {}) wLaneC1.bands []
      = survivors (rowOf wLaneC1 100 200 {}) ([] ++ wBandA :: ([] ++ [])) [] :=
  ⟨rfl, rfl,
   (lane_row_collision wLaneC1 60 100 200 {} [] [] [] wBandA wBandB rfl rfl).1 []⟩

section RangeHelpers

lemma exceptMap_error_of_mem {α β : Type} (f : α → Except GelError β) :
    ∀ (l : List α) (x : α), x ∈ l → f x = .error .emptyInput →
      exceptMap f l = .error .emptyInput := by
  intro l
  induction l with
  | nil => intro x hx; cases hx
  | cons a l ih =>
    intro x hx hfx
    rcases List.mem_cons.mp hx with h | h
    · subst h
      simp [exceptMap, hfx]
    · cases hfa : f a with
      | error e => cases e; simp [exceptMap, hfa]
      | ok b => simp [exceptMap, hfa, ih x h hfx]

lemma exceptMap_ok_mem {α β : Type} (f : α → Except GelError β) :
    ∀ (l : List α) (ys : List β), exceptMap f l = .ok ys →
      ∀ x ∈ l, ∃ y ∈ ys, f x = .ok y := by
  intro l
  induction l with
  | nil => intro ys h x hx; cases hx
  | cons a l ih =>
    intro ys h x hx
    cases hfa : f a with
    | error e => simp [exceptMap, hfa] at h
    | ok b =>
      cases hrest : exceptMap f l with
      | error e => simp [exceptMap, hfa, hrest] at h
      | ok bs =>
        simp only [exceptMap, hfa, hrest] at h
        obtain rfl : b :: bs = ys := by
          cases h; rfl
        rcases List.mem_cons.mp hx with h1 | h1
        · subst h1; exact ⟨b, List.mem_cons_self _ _, hfa⟩
        · obtain ⟨y, hy, hfy⟩ := ih bs hrest x h1
          exact ⟨y, List.mem_cons_of_mem _ hy, hfy⟩

lemma foldl_min_init_le (l : List ℕ) (a : ℕ) : l.foldl min a ≤ a := by
  induction l generalizing a with
  | nil => exact le_refl a
  | cons b l ih => exact le_trans (ih (min a b)) (min_le_left a b)

lemma foldl_min_le_mem (l : List ℕ) (a : ℕ) : ∀ x ∈ l, l.foldl min a ≤ x := by
  induction l generalizing a with
  | nil => intro x hx; cases hx
  | cons b l ih =>
    intro x hx
    rcases List.mem_cons.mp hx with h | h
    · subst h
      exact le_trans (foldl_min_init_le l (min a x)) (min_le_right a x)
    · exact ih (min a b) x h

lemma pyMinNat_le (l : List ℕ) (m : ℕ) (h : pyMinNat l = .ok m) :
    ∀ x ∈ l, m ≤ x := by
  cases l with
  | nil => cases h
  | cons a l =>
    intro x hx
    obtain rfl : l.foldl min a = m := by cases h; rfl
    rcases List.mem_cons.mp hx with h1 | h1
    · subst h1; exact foldl_min_init_le l x
    · exact foldl_min_le_mem l a x h1

lemma pyMaxNat_ge (l : List ℕ) (m : ℕ) (h : pyMaxNat l = .ok m) :
    ∀ x ∈ l, x ≤ m := by
  cases l with
  | nil => cases h
  | cons a l =>
    intro x hx
    obtain rfl : l.foldl max a = m := by cases h; rfl
    rcases List.mem_cons.mp hx with h1 | h1
    · subst h1; exact foldl_max_init_le l x
    · exact foldl_max_mem_le l a x h1

lemma dataMinN_le (lanes : List Lane) (m : ℕ) (h : dataMinN lanes = .ok m) :
    ∀ lane ∈ lanes, ∀ b ∈ lane.bands, m ≤ b.numBases := by
  unfold dataMinN at h
  cases hmap : exceptMap (fun l => pyMinNat (l.bands.map Band.numBases)) lanes with
  | error e => rw [hmap] at h; cases h
  | ok ms =>
    rw [hmap] at h
    intro lane hlane b hb
    obtain ⟨y, hy, hfy⟩ := exceptMap_ok_mem _ lanes ms hmap lane hlane
    exact le_trans (pyMinNat_le ms m h y hy)
      (pyMinNat_le _ y hfy b.numBases (List.mem_map_of_mem Band.numBases hb))

lemma dataMaxN_ge (lanes : List Lane) (m : ℕ) (h : dataMaxN lanes = .ok m) :
    ∀ lane ∈ lanes, ∀ b ∈ lane.bands, b.numBases ≤ m := by
  unfold dataMaxN at h
  cases hmap : exceptMap (fun l => pyMaxNat (l.bands.map Band.numBases)) lanes with
  | error e => rw [hmap] at h; cases h
  | ok ms =>
    rw [hmap] at h
    intro lane hlane b hb
    obtain ⟨y, hy, hfy⟩ := exceptMap_ok_mem _ lanes ms hmap lane hlane
    exact le_trans
      (pyMaxNat_ge _ y hfy b.numBases (List.mem_map_of_mem Band.numBases hb))
      (pyMaxNat_ge ms m h y hy)

lemma makeLadderF_min_le (L B : List ℕ) (minN maxN : ℕ) :
    (makeLadderF L B minN maxN).2.1 ≤ minN := by
  unfold makeLadderF
  dsimp only
  split
  · next h => exact le_of_lt h.2
  · exact le_refl minN

lemma makeLadderF_max_ge (L B : List ℕ) (minN maxN : ℕ) :
    maxN ≤ (makeLadderF L B minN maxN).2.2 := by
  unfold makeLadderF
  dsimp only
  split
  · next h => exact le_of_lt h.2
  · exact le_refl maxN

end RangeHelpers

/-- C8: a Gel constructed from zero lanes, or from a lane list in which
some lane has zero bands, fails with the empty-input error when the
global fragment-length range is computed. -/
theorem gel_empty_input (lanes : List Lane) (p : drawParams) (L B : List ℕ)
    (h : lanes = [] ∨ ∃ l ∈ lanes, l.bands = []) :
    Gel.init lanes p L B = .error .emptyInput := by
  rcases h with h | ⟨l, hl, hb⟩
  · subst h; rfl
  · have hfx : pyMaxNat (l.bands.map Band.numBases) = .error .emptyInput := by
      rw [hb]; rfl
    have h2 := exceptMap_error_of_mem
      (fun l => pyMaxNat (l.bands.map Band.numBases)) lanes l hl hfx
    simp [Gel.init, dataMaxN, h2]

theorem gel_empty_input_witness :
    (([] : List Lane) = [] ∨ ∃ l ∈ ([] : List Lane), l.bands = []) ∧
    Gel.init [] {} defaultLadder defaultBold = .error .emptyInput :=
  ⟨Or.inl rfl, gel_empty_input [] {} defaultLadder defaultBold (Or.inl rfl)⟩

/-- C10: ladder construction never narrows the observed data range: every
successfully constructed Gel has minNBases at most every data band length
and maxNBases at least every data band length. -/
theorem ladder_never_narrows (lanes : List Lane) (p : drawParams)
    (L B : List ℕ) (g : Gel) (hg : Gel.init lanes p L B = .ok g) :
    ∀ lane ∈ lanes, ∀ b ∈ lane.bands,
      g.minNBases ≤ b.numBases ∧ b.numBases ≤ g.maxNBases := by
  unfold Gel.init at hg
  cases hmax : dataMaxN lanes with
  | error e => rw [hmax] at hg; cases hg
  | ok maxN =>
    cases hmin : dataMinN lanes with
    | error e => rw [hmax, hmin] at hg; cases hg
    | ok minN =>
      rw [hmax, hmin] at hg
      obtain rfl : (⟨B, lanes, p, [], (makeLadderF L B minN maxN).2.1,
          (makeLadderF L B minN maxN).2.2,
          mkLane "Ladder" (makeLadderF L B minN maxN).1 p true⟩ : Gel) = g := by
        cases hg; rfl
      intro lane hlane b hb
      constructor
      · exact le_trans (makeLadderF_min_le L B minN maxN)
          (dataMinN_le lanes minN hmin lane hlane b hb)
      · exact le_trans (dataMaxN_ge lanes maxN hmax lane hlane b hb)
          (makeLadderF_max_ge L B minN maxN)

def wLane110 : Lane := mkLane "1" [⟨110, "", 1, none⟩, ⟨140, "", 1, none⟩] {} false

def wGelC2 : Gel :=
  match Gel.init [wLane110] {} defaultLadder defaultBold with
  | .ok g => g
  | .error _ => gFallback

theorem ladder_never_narrows_witness :
    wGelC2.minNBases ≤ 110 ∧ 110 ≤ wGelC2.maxNBases := by
  have h := ladder_never_narrows [wLane110] {} defaultLadder defaultBold wGelC2
    rfl wLane110 (List.mem_singleton_self _) ⟨110, "", 1, none⟩ (by decide)
  exact h

section LadderWindow

lemma foldl_fixed {α β : Type} (f : α → β → α) (l : List β) (a : α)
    (h : ∀ x ∈ l, ∀ acc, f acc x = acc) : l.foldl f a = a := by
  induction l generalizing a with
  | nil => rfl
  | cons b l ih =>
    rw [List.foldl_cons, h b (List.mem_cons_self _ _) a]
    exact ih a (fun x hx acc => h x (List.mem_cons_of_mem _ hx) acc)

lemma ladderStep_low (A B bold : List ℕ) (hA : ∀ a ∈ A, a < 100)
    (i : ℕ) (hi : i < A.length) (acc : List Band × ℕ × ℕ) :
    ladderStep (A ++ 100 :: 125 :: 150 :: B) bold 110 140 acc i = acc := by
  have hlen : (A ++ 100 :: 125 :: 150 :: B).length = A.length + (3 + B.length) := by
    simp [List.length_append]
    omega
  have hlength : (A ++ 100 :: 125 :: 150 :: B).getD i 0 < 100 := by
    rw [List.getD_append _ _ _ i hi, List.getD_eq_getElem A 0 hi]
    exact hA _ (List.getElem_mem hi)
  have hn2 : (A ++ 100 :: 125 :: 150 :: B).getD
      (min ((A ++ 100 :: 125 :: 150 :: B).length - 1) (i + 1)) 0 ≤ 100 := by
    have hmin : min ((A ++ 100 :: 125 :: 150 :: B).length - 1) (i + 1) = i + 1 :=
      min_eq_right (by omega)
    rw [hmin]
    rcases Nat.lt_or_ge (i + 1) A.length with h | h
    · rw [List.getD_append _ _ _ _ h, List.getD_eq_getElem A 0 h]
      exact le_of_lt (hA _ (List.getElem_mem h))
    · have hEq : A.length = i + 1 := by omega
      rw [List.getD_append_right _ _ _ _ (le_of_eq hEq), ← hEq, Nat.sub_self,
        List.getD_cons_zero]
  unfold ladderStep
  dsimp only
  rw [if_neg]
  rintro (⟨h1, h2⟩ | ⟨h1, h2⟩ | ⟨h1, h2⟩) <;> omega

lemma ladderStep_high (A B bold : List ℕ) (hB : ∀ b ∈ B, 150 < b)
    (j : ℕ) (hj : j < B.length) (acc : List Band × ℕ × ℕ) :
    ladderStep (A ++ 100 :: 125 :: 150 :: B) bold 110 140 acc
      (A.length + (3 + j)) = acc := by
  have hlength : 150 < (A ++ 100 :: 125 :: 150 :: B).getD (A.length + (3 + j)) 0 := by
    rw [List.getD_append_right _ _ _ _ (by omega),
      show A.length + (3 + j) - A.length = j + 1 + 1 + 1 from by omega]
    simp only [List.getD_cons_succ]
    rw [List.getD_eq_getElem B 0 hj]
    exact hB _ (List.getElem_mem hj)
  have hn1 : 150 ≤ (A ++ 100 :: 125 :: 150 :: B).getD
      (max 0 (A.length + (3 + j) - 1)) 0 := by
    rw [show max 0 (A.length + (3 + j) - 1) = A.length + (j + 1 + 1) from by omega,
      List.getD_append_right _ _ _ _ (by omega),
      show A.length + (j + 1 + 1) - A.length = j + 1 + 1 from by omega]
    simp only [List.getD_cons_succ]
    rcases j with _ | j2
    · rw [List.getD_cons_zero]
    · rw [List.getD_cons_succ, List.getD_eq_getElem B 0 (by omega : j2 < B.length)]
      exact le_of_lt (hB _ (List.getElem_mem _))
  unfold ladderStep
  dsimp only
  rw [if_neg]
  rintro (⟨h1, h2⟩ | ⟨h1, h2⟩ | ⟨h1, h2⟩) <;> omega

lemma ladderStep_at100 (A B bold : List ℕ) :
    ladderStep (A ++ 100 :: 125 :: 150 :: B) bold 110 140 ([], 1000, 0) A.length
      = ([⟨100, rjust3 100, if 100 ∈ bold then 1 else 1/2, none⟩], 1000, 125) := by
  have hlen : (A ++ 100 :: 125 :: 150 :: B).length = A.length + (3 + B.length) := by
    simp [List.length_append]
    omega
  have hlength : (A ++ 100 :: 125 :: 150 :: B).getD A.length 0 = 100 := by
    rw [List.getD_append_right _ _ _ _ (le_refl _), Nat.sub_self, List.getD_cons_zero]
  have hn2 : (A ++ 100 :: 125 :: 150 :: B).getD
      (min ((A ++ 100 :: 125 :: 150 :: B).length - 1) (A.length + 1)) 0 = 125 := by
    rw [min_eq_right (by omega), List.getD_append_right _ _ _ _ (by omega),
      show A.length + 1 - A.length = 0 + 1 from by omega,
      List.getD_cons_succ, List.getD_cons_zero]
  unfold ladderStep
  dsimp only
  rw [hlength, hn2]
  norm_num

lemma ladderStep_at125 (A B bold : List ℕ) (bs : List Band) :
    ladderStep (A ++ 100 :: 125 :: 150 :: B) bold 110 140 (bs, 1000, 125)
      (A.length + 1)
      = (bs ++ [⟨125, rjust3 125, if 125 ∈ bold then 1 else 1/2, none⟩], 100, 150) := by
  have hlen : (A ++ 100 :: 125 :: 150 :: B).length = A.length + (3 + B.length) := by
    simp [List.length_append]
    omega
  have hlength : (A ++ 100 :: 125 :: 150 :: B).getD (A.length + 1) 0 = 125 := by
    rw [List.getD_append_right _ _ _ _ (by omega),
      show A.length + 1 - A.length = 0 + 1 from by omega,
      List.getD_cons_succ, List.getD_cons_zero]
  have hn1 : (A ++ 100 :: 125 :: 150 :: B).getD (max 0 (A.length + 1 - 1)) 0 = 100 := by
    rw [show max 0 (A.length + 1 - 1) = A.length from by omega,
      List.getD_append_right _ _ _ _ (le_refl _), Nat.sub_self, List.getD_cons_zero]
  have hn2 : (A ++ 100 :: 125 :: 150 :: B).getD
      (min ((A ++ 100 :: 125 :: 150 :: B).length - 1) (A.length + 1 + 1)) 0 = 150 := by
    rw [min_eq_right (by omega), List.getD_append_right _ _ _ _ (by omega),
      show A.length + 1 + 1 - A.length = 0 + 1 + 1 from by omega,
      List.getD_cons_succ, List.getD_cons_succ, List.getD_cons_zero]
  unfold ladderStep
  dsimp only
  rw [hlength, hn1, hn2]
  norm_num

lemma ladderStep_at150 (A B bold : List ℕ) (bs : List Band) :
    ladderStep (A ++ 100 :: 125 :: 150 :: B) bold 110 140 (bs, 100, 150)
      (A.length + 2)
      = (bs ++ [⟨150, rjust3 150, if 150 ∈ bold then 1 else 1/2, none⟩], 100, 150) := by
  have hlen : (A ++ 100 :: 125 :: 150 :: B).length = A.length + (3 + B.length) := by
    simp [List.length_append]
    omega
  have hlength : (A ++ 100 :: 125 :: 150 :: B).getD (A.length + 2) 0 = 150 := by
    rw [List.getD_append_right _ _ _ _ (by omega),
      show A.length + 2 - A.length = 0 + 1 + 1 from by omega,
      List.getD_cons_succ, List.getD_cons_succ, List.getD_cons_zero]
  have hn1 : (A ++ 100 :: 125 :: 150 :: B).getD (max 0 (A.length + 2 - 1)) 0 = 125 := by
    rw [show max 0 (A.length + 2 - 1) = A.length + 1 from by omega,
      List.getD_append_right _ _ _ _ (by omega),
      show A.length + 1 - A.length = 0 + 1 from by omega,
      List.getD_cons_succ, List.getD_cons_zero]
  unfold ladderStep
  dsimp only
  rw [hlength, hn1]
  norm_num

lemma makeLadderF_window (A B bold : List ℕ)
    (hA : ∀ a ∈ A, a < 100) (hB : ∀ b ∈ B, 150 < b) :
    makeLadderF (A ++ 100 :: 125 :: 150 :: B) bold 110 140
      = ([⟨100, rjust3 100, if 100 ∈ bold then 1 else 1/2, none⟩,
          ⟨125, rjust3 125, if 125 ∈ bold then 1 else 1/2, none⟩,
          ⟨150, rjust3 150, if 150 ∈ bold then 1 else 1/2, none⟩], 100, 150) := by
  have hlen : (A ++ 100 :: 125 :: 150 :: B).length = A.length + (3 + B.length) := by
    simp [List.length_append]
    omega
  have hscan : (List.range (A ++ 100 :: 125 :: 150 :: B).length).foldl
      (ladderStep (A ++ 100 :: 125 :: 150 :: B) bold 110 140) ([], 1000, 0)
      = ([⟨100, rjust3 100, if 100 ∈ bold then 1 else 1/2, none⟩,
          ⟨125, rjust3 125, if 125 ∈ bold then 1 else 1/2, none⟩,
          ⟨150, rjust3 150, if 150 ∈ bold then 1 else 1/2, none⟩], 100, 150) := by
    rw [hlen, List.range_add, List.foldl_append,
      foldl_fixed _ _ _ (fun i hi acc =>
        ladderStep_low A B bold hA i (List.mem_range.mp hi) acc),
      List.range_add, List.map_append, List.foldl_append, List.map_map]
    have h3 : (List.map (fun x => A.length + x) (List.range 3)).foldl
        (ladderStep (A ++ 100 :: 125 :: 150 :: B) bold 110 140) ([], 1000, 0)
        = ([⟨100, rjust3 100, if 100 ∈ bold then 1 else 1/2, none⟩,
            ⟨125, rjust3 125, if 125 ∈ bold then 1 else 1/2, none⟩,
            ⟨150, rjust3 150, if 150 ∈ bold then 1 else 1/2, none⟩], 100, 150) := by
      rw [show List.range 3 = [0, 1, 2] from rfl]
      simp only [List.map_cons, List.map_nil, List.foldl_cons, List.foldl_nil,
        Nat.add_zero]
      rw [ladderStep_at100 A B bold, ladderStep_at125 A B bold,
        ladderStep_at150 A B bold]
      simp
    rw [h3, foldl_fixed]
    rintro x hx acc
    obtain ⟨j, hj, rfl⟩ := List.mem_map.mp hx
    exact ladderStep_high A B bold hB j (List.mem_range.mp hj) acc
  unfold makeLadderF
  dsimp only
  rw [hscan]
  norm_num

end LadderWindow

/-- C2: for any ascending canonical marker list that contains the markers
100, 125, 150 consecutively, and any data lanes whose observed
fragment-length range is exactly [110, 140], the constructed ladder
consists of exactly the markers 100, 125 and 150 - 125 strictly inside
the range, 100 and 150 as boundary neighbors - and the effective range
is widened to [100, 150]. -/
theorem ladder_inclusion (lanes : List Lane) (p : drawParams) (g : Gel)
    (A B bold : List ℕ)
    (hsort : List.Sorted (fun a b => a < b) (A ++ 100 :: 125 :: 150 :: B))
    (hmin : dataMinN lanes = .ok 110) (hmax : dataMaxN lanes = .ok 140)
    (hg : Gel.init lanes p (A ++ 100 :: 125 :: 150 :: B) bold = .ok g) :
    g.ladder.bands.map Band.numBases = [100, 125, 150] ∧
    g.minNBases = 100 ∧ g.maxNBases = 150 := by
  have hA : ∀ a ∈ A, a < 100 := fun a ha =>
    (List.pairwise_append.mp hsort).2.2 a ha 100 (List.mem_cons_self _ _)
  have hB : ∀ b ∈ B, 150 < b := by
    have h2 := (List.pairwise_append.mp hsort).2.1
    exact (List.pairwise_cons.mp
      (List.pairwise_cons.mp (List.pairwise_cons.mp h2).2).2).1
  unfold Gel.init at hg
  rw [hmax, hmin] at hg
  obtain rfl : (⟨bold, lanes, p, [],
      (makeLadderF (A ++ 100 :: 125 :: 150 :: B) bold 110 140).2.1,
      (makeLadderF (A ++ 100 :: 125 :: 150 :: B) bold 110 140).2.2,
      mkLane "Ladder" (makeLadderF (A ++ 100 :: 125 :: 150 :: B) bold 110 140).1
        p true⟩ : Gel) = g := by
    cases hg; rfl
  rw [makeLadderF_window A B bold hA hB]
  refine ⟨?_, rfl, rfl⟩
  simp [mkLane]

theorem ladder_inclusion_witness :
    List.Sorted (fun a b => a < b) (([25, 50, 75] : List ℕ) ++ 100 :: 125 :: 150 ::
      [200, 250, 300, 400, 500, 600, 700, 800, 900, 1000, 1250, 1500, 1750, 2000]) ∧
    dataMinN [wLane110] = .ok 110 ∧ dataMaxN [wLane110] = .ok 140 ∧
    wGelC2.ladder.bands.map Band.numBases = [100, 125, 150] ∧
    wGelC2.minNBases = 100 ∧ wGelC2.maxNBases = 150 :=
  ⟨by decide, rfl, rfl,
   ladder_inclusion [wLane110] {} wGelC2 [25, 50, 75]
     [200, 250, 300, 400, 500, 600, 700, 800, 900, 1000, 1250, 1500, 1750, 2000]
     defaultBold (by decide) rfl rfl rfl⟩

/-- Modelled from the spec, for comparison with the widening the code does: the
smallest included boundary-neighbor marker lying strictly below the
observed min_length (claim C5 says min_length is widened to exactly this
value when it exists). -/
def specTrackedMin (L bold : List ℕ) (minN maxN : ℕ) : Option ℕ :=
  match ((makeLadderF L bold minN maxN).1.map Band.numBases).filter
      (fun m => m < minN) with
  | [] => none
  | x :: xs => some (xs.foldl min x)

/-- Modelled from the spec: the largest included boundary-neighbor marker
lying strictly above the observed max_length. -/
def specTrackedMax (L bold : List ℕ) (minN maxN : ℕ) : Option ℕ :=
  match ((makeLadderF L bold minN maxN).1.map Band.numBases).filter
      (fun m => m > maxN) with
  | [] => none
  | x :: xs => some (xs.foldl max x)

def wLaneBug : Lane :=
  mkLane "b" [⟨1300, "", 1, none⟩, ⟨1400, "", 1, none⟩] {} false

def wGelBug : Gel :=
  match Gel.init [wLaneBug] {} defaultLadder defaultBold with
  | .ok g => g
  | .error _ => gFallback

/-- C5 fails on the code: for the observed range [1300, 1400] with the
default canonical list, the included markers are 1250 and 1500, the
smallest included boundary neighbor below min is 1250, yet the code sets
minNBases to 1000 - the never-tracked sentinel initial value of newMin,
which is not even an included marker - because the guard tests
newMin != 0 instead of newMin != 1000. The max side widens to 1500 as
specified. -/
theorem ladder_widen_sentinel_bug :
    Gel.init [wLaneBug] {} defaultLadder defaultBold = .ok wGelBug ∧
    wGelBug.ladder.bands.map Band.numBases = [1250, 1500] ∧
    specTrackedMin defaultLadder defaultBold 1300 1400 = some 1250 ∧
    wGelBug.minNBases = 1000 ∧ (1000 : ℕ) ≠ 1250 ∧
    1000 ∉ wGelBug.ladder.bands.map Band.numBases ∧
    specTrackedMax defaultLadder defaultBold 1300 1400 = some 1500 ∧
    wGelBug.maxNBases = 1500 :=
  ⟨rfl, by decide, by decide, by decide, by decide, by decide, by decide,
   by decide⟩

section DrawHelpers

lemma laneDrawEvents_ok (lane : Lane) (x : ℤ) (minB maxB : ℕ)
    (p : drawParams) (h : lane.bands ≠ []) :
    ∃ evs, laneDrawEvents lane x minB maxB p = .ok evs := by
  rcases hl : lane.bands with _ | ⟨b, bs⟩
  · exact absurd hl h
  · have hmax : pyMaxQ (lane.bands.map Band.reads)
        = some ((bs.map Band.reads).foldl max b.reads) := by rw [hl]; rfl
    exact ⟨Event.text lane.name (x, 10) p.fontsize ::
      drawBands (rowOf lane minB maxB p)
        (emitOf lane x p ((bs.map Band.reads).foldl max b.reads)) lane.bands [],
      by simp only [laneDrawEvents, hmax]⟩

lemma drawLanes_ok (p : drawParams) (minN maxN : ℕ) :
    ∀ (ls : List Lane) (i : ℕ), (∀ l ∈ ls, l.bands ≠ []) →
      ∃ evs, drawLanes p minN maxN ls i = .ok evs := by
  intro ls
  induction ls with
  | nil => intro i _; exact ⟨[], rfl⟩
  | cons lane rest ih =>
    intro i hall
    obtain ⟨evs, hevs⟩ := laneDrawEvents_ok lane (laneXN p i) minN maxN p
      (hall lane (List.mem_cons_self _ _))
    obtain ⟨evss, hevss⟩ := ih (i + 1)
      (fun l hl => hall l (List.mem_cons_of_mem _ hl))
    exact ⟨evs ++ evss, by simp only [drawLanes, hevs, hevss]⟩

lemma gelDrawEvents_ok (g : Gel) (h1 : g.ladder.bands ≠ [])
    (h2 : ∀ l ∈ g.lanes, l.bands ≠ []) :
    ∃ T, gelDrawEvents g = .ok (bgEvent g :: T) := by
  obtain ⟨lev, hlev⟩ := laneDrawEvents_ok g.ladder (g.dParam.margin : ℤ)
    g.minNBases g.maxNBases g.dParam h1
  obtain ⟨evs, hevs⟩ := drawLanes_ok g.dParam g.minNBases g.maxNBases g.lanes 0 h2
  exact ⟨lev ++ evs, by simp only [gelDrawEvents, gelDrawCore, hlev, hevs, bgEvent]⟩

lemma gelDrawEvents_set_dwg (g : Gel) (d : List Event) :
    gelDrawEvents {g with dwg := d} = gelDrawEvents g := rfl

lemma list_ne_append_of_ne_nil {α : Type} (l E : List α) (h : E ≠ []) :
    l ≠ l ++ E := by
  intro hEq
  have hlen := congrArg List.length hEq
  rw [List.length_append] at hlen
  have : E.length = 0 := by omega
  exact h (List.length_eq_zero.mp this)

lemma draw_twice_aux (g : Gel) (h1 : g.ladder.bands ≠ [])
    (h2 : ∀ l ∈ g.lanes, l.bands ≠ []) : secondDrawDiffers g := by
  obtain ⟨T, hE⟩ := gelDrawEvents_ok g h1 h2
  have hdraw1 : Gel.draw g
      = .ok ({g with dwg := g.dwg ++ (bgEvent g :: T)}, g.dwg ++ (bgEvent g :: T)) := by
    simp only [Gel.draw, hE, Except.map]
  have hE2 : gelDrawEvents {g with dwg := g.dwg ++ (bgEvent g :: T)}
      = .ok (bgEvent g :: T) := by
    rw [gelDrawEvents_set_dwg]; exact hE
  have hdraw2 : Gel.draw {g with dwg := g.dwg ++ (bgEvent g :: T)}
      = .ok ({g with dwg := (g.dwg ++ (bgEvent g :: T)) ++ (bgEvent g :: T)},
             (g.dwg ++ (bgEvent g :: T)) ++ (bgEvent g :: T)) := by
    simp only [Gel.draw, hE2, Except.map]
  simp only [secondDrawDiffers, drawDrawOutputs, hdraw1, hdraw2]
  refine ⟨list_ne_append_of_ne_nil _ _ (by simp), bgEvent g :: T, by simp, rfl⟩

end DrawHelpers

/-- C6 fails on the code: Gel.draw adds its elements to the persistent
drawing object, so a second draw() call on the same Gel appends every
element again and serializes a strictly longer document; here on a
concrete Gel the two outputs are not identical. -/
theorem draw_twice_not_identical : secondDrawDiffers wGelC2 :=
  draw_twice_aux wGelC2 (by decide) (by decide)

/-- C6 amended: draw() is not idempotent but accumulative. Whenever both
calls succeed (the ladder and every data lane nonempty), each call emits
the same deterministic event block, the second serialized output is the
first followed by one more copy of that nonempty block, and the two
outputs are therefore never byte-identical. -/
theorem gel_draw_accumulates (g : Gel) (h1 : g.ladder.bands ≠ [])
    (h2 : ∀ l ∈ g.lanes, l.bands ≠ []) : secondDrawDiffers g :=
  draw_twice_aux g h1 h2

def wLaneC6 : Lane :=
  mkLane "c" [⟨120, "", 1, none⟩, ⟨130, "", 2, none⟩] {} false

def wGelC6 : Gel :=
  match Gel.init [wLaneC6] {} defaultLadder defaultBold with
  | .ok g => g
  | .error _ => gFallback

theorem gel_draw_accumulates_witness :
    wGelC6.ladder.bands ≠ [] ∧ (∀ l ∈ wGelC6.lanes, l.bands ≠ []) ∧
    secondDrawDiffers wGelC6 :=
  ⟨by decide, by decide, gel_draw_accumulates wGelC6 (by decide) (by decide)⟩

/-- C4 amended: the first element every successful Gel.draw emits is the
full-canvas background rectangle whose width is
2*margin + (laneCount-1)*gapWidth + laneCount*laneWidth with laneCount
the number of data lanes ONLY - the ladder lane is not counted. -/
theorem gel_canvas_width (g : Gel) (h1 : g.ladder.bands ≠ [])
    (h2 : ∀ l ∈ g.lanes, l.bands ≠ []) :
    ∃ T, gelDrawEvents g = .ok (bgEvent g :: T) ∧
      bgEvent g = Event.rect (0, 0)
        ((gelWidth g : ℚ), (g.dParam.gelHeight : ℚ) + 2 * (g.dParam.margin : ℚ))
        "black" 1 ∧
      gelWidth g = (g.dParam.margin : ℤ) * 2
        + ((g.lanes.length : ℤ) - 1) * (g.dParam.gapWidth : ℤ)
        + (g.lanes.length : ℤ) * (g.dParam.laneWidth : ℤ) := by
  obtain ⟨T, hT⟩ := gelDrawEvents_ok g h1 h2
  exact ⟨T, hT, rfl, rfl⟩

theorem gel_canvas_width_witness :
    wGelC2.ladder.bands ≠ [] ∧ (∀ l ∈ wGelC2.lanes, l.bands ≠ []) ∧
    ∃ T, gelDrawEvents wGelC2 = .ok (bgEvent wGelC2 :: T) ∧
      bgEvent wGelC2 = Event.rect (0, 0)
        ((gelWidth wGelC2 : ℚ),
         (wGelC2.dParam.gelHeight : ℚ) + 2 * (wGelC2.dParam.margin : ℚ))
        "black" 1 ∧
      gelWidth wGelC2 = (wGelC2.dParam.margin : ℤ) * 2
        + ((wGelC2.lanes.length : ℤ) - 1) * (wGelC2.dParam.gapWidth : ℤ)
        + (wGelC2.lanes.length : ℤ) * (wGelC2.dParam.laneWidth : ℤ) :=
  ⟨by decide, by decide, gel_canvas_width wGelC2 (by decide) (by decide)⟩

/-- C4 fails as stated: for a Gel with one data lane (so two lanes
counting the ladder), the background canvas rectangle actually emitted by
Gel.draw is 150 pixels wide - computed from the single data lane - while
the claimed formula with laneCount = 2 (ladder included) gives 200. -/
theorem gel_canvas_width_cex :
    (∃ T, gelDrawEvents wGelC2
        = .ok (Event.rect (0, 0) ((150 : ℚ), 520) "black" 1 :: T)) ∧
    wGelC2.lanes.length + 1 = 2 ∧
    (2 : ℤ) * 60 + ((2 : ℤ) - 1) * 20 + (2 : ℤ) * 30 = 200 ∧
    (150 : ℚ) ≠ 200 := by
  refine ⟨?_, by decide, by norm_num, by norm_num⟩
  obtain ⟨T, hT⟩ := gelDrawEvents_ok wGelC2 (by decide) (by decide)
  refine ⟨T, ?_⟩
  rw [hT]
  have hw : gelWidthN wGelC2.dParam wGelC2.lanes.length = 150 := by
    rw [show wGelC2.dParam = ({} : drawParams) from rfl,
        show wGelC2.lanes.length = 1 from rfl]
    norm_num [gelWidthN]
  have hbg : bgEvent wGelC2 = Event.rect (0, 0) ((150 : ℚ), 520) "black" 1 := by
    unfold bgEvent bgEventN
    rw [hw, show wGelC2.dParam.gelHeight = 400 from rfl,
        show wGelC2.dParam.margin = 60 from rfl]
    norm_num
  rw [hbg]
